import Mathlib

/-!
Verification of the AI-assisted visual regression comparator of the
playwright-ai-framework repository.

The development shallowly embeds, over `List Char` / `String`:
  * `interpretAIJsonResponse` (src/helpers/VisualTestHelper.ts, lines 175-224):
    fence stripping, brace slicing, newline normalization, the missing-comma
    repair, `JSON.parse`, and shape validation;
  * `expectPageToMatchVisuallyAI` (same file, lines 47-160): the comparison
    orchestrator, modelled as a pure function of the pre-state of the baseline
    store, the fresh screenshot bytes, the options, and the gateway response;
  * `LocalLLMService.generateMultimodalResponse` (src/ai/LocalLLMService.ts):
    payload construction (JavaScript `||` defaulting) and the catch-all
    error-to-result conversion, with the HTTP transport as a parameter;
  * `LLMUtils.getLLMService` (src/ai/LLMUtils.ts): the process-wide singleton
    backend selection, modelled by explicit state passing.

JavaScript numbers are modelled as rationals, byte buffers as `List Nat`,
strings as `List Char` (with `String` wrappers at the API boundary).
-/

/-- JavaScript `\s` (ASCII part, which is all the source ever feeds it):
space, tab, line feed, vertical tab, form feed, carriage return. -/
def isJsSpace (c : Char) : Bool :=
  c = ' ' || c = '\t' || c = '\n' || c = '\x0b' || c = '\x0c' || c = '\r'

/-- Whitespace skipped by `JSON.parse` between tokens (RFC 8259). -/
def isJsonWs (c : Char) : Bool :=
  c = ' ' || c = '\t' || c = '\n' || c = '\r'

/-- Boolean prefix test on char lists (same behaviour as `List.isPrefixOf`,
defined locally so all computation lemmas are under our control). -/
def listIsPre : List Char → List Char → Bool
  | [], _ => true
  | _ :: _, [] => false
  | p :: ps, c :: cs => p = c && listIsPre ps cs

/-- Substring test: does `pat` occur contiguously inside `hay`? -/
def listHas : List Char → List Char → Bool
  | _, [] => true
  | [], _ :: _ => false
  | c :: cs, pat => listIsPre pat (c :: cs) || listHas cs pat

/-- `strContains hay pat` decides whether `pat` is a contiguous substring of
`hay`; used to state "the reason mentions ..." claims. -/
def strContains (hay pat : String) : Bool :=
  listHas hay.data pat.data

/-- Step 1a of `interpretAIJsonResponse`:
`jsonString.replace(/```json\n?/g, '')`.  The regex scan walks left to right;
on a match it removes the seven characters and a directly following newline
(greedy `\n?`) and resumes after them, otherwise it keeps the head character.
The overlapping deep patterns reproduce the leftmost-greedy behaviour. -/
def stripFencesJson : List Char → List Char
  | '`' :: '`' :: '`' :: 'j' :: 's' :: 'o' :: 'n' :: '\n' :: rest => stripFencesJson rest
  | '`' :: '`' :: '`' :: 'j' :: 's' :: 'o' :: 'n' :: rest => stripFencesJson rest
  | c :: rest => c :: stripFencesJson rest
  | [] => []

/-- Step 1b: `.replace(/```$/g, '')`.  Without the `m` flag, `$` anchors at the
very end of the string, so this removes one trailing "```" if present. -/
def stripTrailingFence (cs : List Char) : List Char :=
  if listIsPre ['`', '`', '`'] cs.reverse then (cs.reverse.drop 3).reverse else cs

/-- Step 1c: `.trim()` — strip whitespace from both ends. -/
def jsTrim (cs : List Char) : List Char :=
  ((cs.dropWhile isJsSpace).reverse.dropWhile isJsSpace).reverse

/-- Step 2: locate the first `\x7b` and the last `\x7d`; if either is missing
(or the last `\x7d` sits before the first `\x7b`) the source throws
"Could not find valid JSON object delimiters ..."; otherwise slice to the
inclusive substring.  `none` models the throw. -/
def extractBraced (cs : List Char) : Option (List Char) :=
  if (((cs.dropWhile (fun c => !(c = '\x7b'))).reverse.dropWhile
      (fun c => !(c = '\x7d'))).reverse).isEmpty then none
  else some ((cs.dropWhile (fun c => !(c = '\x7b'))).reverse.dropWhile
      (fun c => !(c = '\x7d'))).reverse

/-- Step 3: `.replace(/\n/g, ' ')` then `.replace(/\r/g, ' ')`. -/
def replaceNewlines (cs : List Char) : List Char :=
  (cs.map (fun c => if c = '\n' then ' ' else c)).map
    (fun c => if c = '\r' then ' ' else c)

/-- Lookbehind `(?<="passed":\s*(?:true|false))` of the comma-repair regex,
checked against the reversed text to the left of the current position:
the processed text must end with `"passed":`, then whitespace, then a
boolean literal. -/
def lookbehindOk (rorig : List Char) : Bool :=
  (if listIsPre ['e', 'u', 'r', 't'] rorig then
    listIsPre [':', '"', 'd', 'e', 's', 's', 'a', 'p', '"'] ((rorig.drop 4).dropWhile isJsSpace)
  else false)
  ||
  (if listIsPre ['e', 's', 'l', 'a', 'f'] rorig then
    listIsPre [':', '"', 'd', 'e', 's', 's', 'a', 'p', '"'] ((rorig.drop 5).dropWhile isJsSpace)
  else false)

/-- Matcher for `(\s*)"reason":`, the consumed part of the comma-repair
regex, applied to the text from the current position on. -/
def aheadOk (rest : List Char) : Bool :=
  listIsPre ['"', 'r', 'e', 'a', 's', 'o', 'n', '"', ':'] (rest.dropWhile isJsSpace)

/-- Step 4, scan of
`.replace(/(?<="passed":\s*(?:true|false))(\s*)"reason":/g, ',$1"reason":')`.
`out` is the reversed output built so far, `rorig` the reversed original
input to the left of the cursor (JavaScript lookbehinds read the original
subject string).  At a match position the replacement only inserts a comma
and re-emits the matched text, so the scan may advance one character at a
time: positions strictly inside a match never satisfy the lookbehind again
(the original text there ends in whitespace or in part of `"reason":`,
never in a boolean literal). -/
def fixCommaAux : List Char → List Char → List Char → List Char
  | out, _, [] => out.reverse
  | out, rorig, c :: rest =>
    if lookbehindOk rorig && aheadOk (c :: rest) then
      fixCommaAux (c :: ',' :: out) (c :: rorig) rest
    else
      fixCommaAux (c :: out) (c :: rorig) rest

/-- Step 4 entry point: insert the missing comma between `"passed": <bool>`
and `"reason":` wherever that malformed pattern occurs. -/
def fixMissingComma (cs : List Char) : List Char :=
  fixCommaAux [] [] cs

example : stripFencesJson "```json\nab```jsoncd".data = "abcd".data := by decide
example : stripTrailingFence "ab```".data = "ab".data := by decide
example : jsTrim "  ab ".data = "ab".data := by decide
example : extractBraced "x\x7ba\x7dy".data = some "\x7ba\x7d".data := by decide
example : extractBraced "xy".data = none := by decide
example : fixMissingComma "\"passed\": true  \"reason\":".data =
    "\"passed\": true,  \"reason\":".data := by decide
example : fixMissingComma "\"passed\": true, \"reason\":".data =
    "\"passed\": true, \"reason\":".data := by decide

/-- JSON values as produced by `JSON.parse`.  Numbers keep their lexeme
(no claim depends on numeric values), objects keep their members in source
order (duplicate keys are resolved last-wins on access, as in JavaScript). -/
inductive Json where
  | jnull : Json
  | jbool (b : Bool) : Json
  | jnum (lexeme : List Char) : Json
  | jstr (s : List Char) : Json
  | jarr (elems : List Json) : Json
  | jobj (members : List (List Char × Json)) : Json

/-- Value of a hexadecimal digit, `none` for other characters. -/
def hexVal (c : Char) : Option Nat :=
  if '0' <= c && c <= '9' then some (c.toNat - '0'.toNat)
  else if 'a' <= c && c <= 'f' then some (c.toNat - 'a'.toNat + 10)
  else if 'A' <= c && c <= 'F' then some (c.toNat - 'A'.toNat + 10)
  else none

/-- Decode one string body after the opening quote, per the `JSON.parse`
grammar: any character except `"`, `\` and controls below 0x20, plus the
escape sequences.  Returns the decoded body and the rest after the closing
quote.  (A `\u` escape denoting an unpaired UTF-16 surrogate is rejected
here, since `Char` cannot carry it; no claim exercises that corner.) -/
def parseStringBody : List Char → Except (List Char) (List Char × List Char)
  | [] => .error "Unterminated string in JSON".data
  | '"' :: rest => .ok ([], rest)
  | '\\' :: rest =>
    match rest with
    | '"' :: r => (parseStringBody r).map (fun p => ('"' :: p.1, p.2))
    | '\\' :: r => (parseStringBody r).map (fun p => ('\\' :: p.1, p.2))
    | '/' :: r => (parseStringBody r).map (fun p => ('/' :: p.1, p.2))
    | 'b' :: r => (parseStringBody r).map (fun p => ('\x08' :: p.1, p.2))
    | 'f' :: r => (parseStringBody r).map (fun p => ('\x0c' :: p.1, p.2))
    | 'n' :: r => (parseStringBody r).map (fun p => ('\n' :: p.1, p.2))
    | 'r' :: r => (parseStringBody r).map (fun p => ('\r' :: p.1, p.2))
    | 't' :: r => (parseStringBody r).map (fun p => ('\t' :: p.1, p.2))
    | 'u' :: h1 :: h2 :: h3 :: h4 :: r =>
      match hexVal h1, hexVal h2, hexVal h3, hexVal h4 with
      | some v1, some v2, some v3, some v4 =>
        let n := ((v1 * 16 + v2) * 16 + v3) * 16 + v4
        if h : n < 0xd800 then
          (parseStringBody r).map (fun p => (Char.ofNatAux n (by omega) :: p.1, p.2))
        else if h2 : 0xe000 <= n && n < 0x10000 then
          (parseStringBody r).map
            (fun p => (Char.ofNatAux n (by simp at h2; omega) :: p.1, p.2))
        else .error "Unpaired surrogate escape not modelled".data
      | _, _, _, _ => .error "Bad Unicode escape in JSON string".data
    | _ => .error "Bad escaped character in JSON string".data
  | c :: rest =>
    if c.val < 0x20 then .error "Bad control character in JSON string".data
    else (parseStringBody rest).map (fun p => (c :: p.1, p.2))

example : parseStringBody "ab c\"rest".data = .ok ("ab c".data, "rest".data) := rfl
example : parseStringBody "a\\nb\"".data = .ok ("a\nb".data, []) := rfl

/-- Lex one JSON number: `-?(0|[1-9][0-9]*)(\.[0-9]+)?([eE][+-]?[0-9]+)?`.
Returns the lexeme and the rest of the input. -/
def lexNumber (cs : List Char) : Except (List Char) (List Char × List Char) :=
  let signLen : Nat := if listIsPre ['-'] cs then 1 else 0
  let afterSign := cs.drop signLen
  let intPart := afterSign.takeWhile Char.isDigit
  let afterInt := afterSign.dropWhile Char.isDigit
  if intPart.isEmpty then .error "Unexpected token in JSON".data
  else if intPart.length > 1 && listIsPre ['0'] intPart then
    .error "Unexpected number with leading zero in JSON".data
  else
    let fracLen : Nat :=
      if listIsPre ['.'] afterInt then
        let digits := (afterInt.drop 1).takeWhile Char.isDigit
        if digits.isEmpty then 0 else 1 + digits.length
      else 0
    if listIsPre ['.'] afterInt && fracLen = 0 then
      .error "Unterminated fractional number in JSON".data
    else
      let afterFrac := afterInt.drop fracLen
      let expState : Except (List Char) Nat :=
        if listIsPre ['e'] afterFrac || listIsPre ['E'] afterFrac then
          let afterE := afterFrac.drop 1
          let expSignLen : Nat :=
            if listIsPre ['+'] afterE || listIsPre ['-'] afterE then 1 else 0
          let digits := (afterE.drop expSignLen).takeWhile Char.isDigit
          if digits.isEmpty then .error "Exponent part is missing a number in JSON".data
          else .ok (1 + expSignLen + digits.length)
        else .ok 0
      match expState with
      | .error e => .error e
      | .ok expLen =>
        let total := signLen + intPart.length + fracLen + expLen
        .ok (cs.take total, cs.drop total)

/-- Parser mode: a value, the inside of an object just after `\x7b`, a member
list with accumulator, the inside of an array just after `[`, or an element
list with accumulator. -/
inductive PMode where
  | pvalue : PMode
  | pobjFirst : PMode
  | pmember (acc : List (List Char × Json)) : PMode
  | parrFirst : PMode
  | pelem (acc : List Json) : PMode

/-- Fuel-indexed recursive descent for `JSON.parse`.  Each recursive call
consumes at least one character first, so fuel `length + 1` always
suffices. -/
def pj : Nat → PMode → List Char → Except (List Char) (Json × List Char)
  | 0, _, _ => .error "JSON parser fuel exhausted".data
  | f + 1, .pvalue, cs =>
    match cs.dropWhile isJsonWs with
    | [] => .error "Unexpected end of JSON input".data
    | '\x7b' :: rest => pj f .pobjFirst rest
    | '[' :: rest => pj f .parrFirst rest
    | '"' :: rest =>
      match parseStringBody rest with
      | .error e => .error e
      | .ok (s, rest2) => .ok (.jstr s, rest2)
    | 't' :: 'r' :: 'u' :: 'e' :: rest => .ok (.jbool true, rest)
    | 'f' :: 'a' :: 'l' :: 's' :: 'e' :: rest => .ok (.jbool false, rest)
    | 'n' :: 'u' :: 'l' :: 'l' :: rest => .ok (.jnull, rest)
    | cs' =>
      match lexNumber cs' with
      | .error e => .error e
      | .ok (lexeme, rest) => .ok (.jnum lexeme, rest)
  | f + 1, .pobjFirst, cs =>
    match cs.dropWhile isJsonWs with
    | '\x7d' :: rest => .ok (.jobj [], rest)
    | _ => pj f (.pmember []) cs
  | f + 1, .pmember acc, cs =>
    match cs.dropWhile isJsonWs with
    | '"' :: rest =>
      match parseStringBody rest with
      | .error e => .error e
      | .ok (k, rest2) =>
        match rest2.dropWhile isJsonWs with
        | ':' :: rest3 =>
          match pj f .pvalue rest3 with
          | .error e => .error e
          | .ok (v, rest4) =>
            match rest4.dropWhile isJsonWs with
            | ',' :: rest5 => pj f (.pmember (acc ++ [(k, v)])) rest5
            | '\x7d' :: rest5 => .ok (.jobj (acc ++ [(k, v)]), rest5)
            | _ => .error "Expected comma or closing brace after JSON member".data
        | _ => .error "Expected colon after key in JSON object".data
    | _ => .error "Expected double-quoted property name in JSON object".data
  | f + 1, .parrFirst, cs =>
    match cs.dropWhile isJsonWs with
    | ']' :: rest => .ok (.jarr [], rest)
    | _ => pj f (.pelem []) cs
  | f + 1, .pelem acc, cs =>
    match pj f .pvalue cs with
    | .error e => .error e
    | .ok (v, rest) =>
      match rest.dropWhile isJsonWs with
      | ',' :: rest2 => pj f (.pelem (acc ++ [v])) rest2
      | ']' :: rest2 => .ok (.jarr (acc ++ [v]), rest2)
      | _ => .error "Expected comma or closing bracket after JSON element".data

/-- `JSON.parse`: parse one value, then require only whitespace to follow. -/
def jsonParse (cs : List Char) : Except (List Char) Json :=
  match pj (cs.length + 1) .pvalue cs with
  | .error e => .error e
  | .ok (j, rest) =>
    if (rest.dropWhile isJsonWs).isEmpty then .ok j
    else .error "Unexpected non-whitespace character after JSON data".data

/-- JavaScript property access `obj[key]` on a parse result: objects resolve
duplicate keys last-wins; any other value has no own properties named by the
keys this code reads. -/
def jsGetProp (j : Json) (key : List Char) : Option Json :=
  match j with
  | .jobj members => members.foldl (fun acc m => if m.1 = key then some m.2 else acc) none
  | _ => none

example : jsonParse "\x7b\"passed\": true, \"reason\": \"ok\"\x7d".data =
    .ok (.jobj [("passed".data, .jbool true), ("reason".data, .jstr "ok".data)]) := rfl
example : jsonParse " [1, 2.5e-1, null] ".data =
    .ok (.jarr [.jnum "1".data, .jnum "2.5e-1".data, .jnull]) := rfl
example : (jsonParse "\x7b\"a\": tru\x7d".data).isOk = false := rfl
example : jsGetProp (.jobj [("a".data, .jnull), ("a".data, .jbool true)]) "a".data =
    some (.jbool true) := rfl

/-- Verdict type of the interpreter (interface `AnalysisResult` in the
source). -/
structure AnalysisResult where
  passed : Bool
  reason : String
deriving DecidableEq

/-- Steps 1 of `interpretAIJsonResponse`: strip "```json" fences, one
trailing "```", then trim. -/
def stage1 (cs : List Char) : List Char :=
  jsTrim (stripTrailingFence (stripFencesJson cs))

/-- Steps 1-2: fence stripping and trimming, then brace slicing; `none`
models the thrown "Could not find valid JSON object delimiters" error. -/
def stageSlice (cs : List Char) : Option (List Char) :=
  extractBraced (stage1 cs)

/-- Steps 3-4 on the sliced text: newline flattening, then the
missing-comma repair. -/
def stageNorm (cs : List Char) : List Char :=
  fixMissingComma (replaceNewlines cs)

/-- Step 6 of `interpretAIJsonResponse`:
`typeof parsed.passed === 'boolean' && typeof parsed.reason === 'string'`.
`some` carries the verdict fields, `none` is the "lacked expected fields"
outcome. -/
def validateShape (j : Json) : Option (Bool × List Char) :=
  match jsGetProp j "passed".data, jsGetProp j "reason".data with
  | some (.jbool b), some (.jstr r) => some (b, r)
  | _, _ => none

/-- Message of the error thrown when brace delimiters are missing. -/
def noDelimMsg : List Char :=
  "Could not find valid JSON object delimiters \x7b\x7d in response.".data

/-- Reason built by the catch block: the error message plus a 100-character
excerpt of the original text. -/
def mkCatchReason (orig msg : List Char) : List Char :=
  ("AI response could not be parsed as valid JSON: ".data ++ msg) ++
    (" (Original: ".data ++ (orig.take 100 ++ "...)".data))

/-- Reason built when parsing succeeded but the shape check failed, with a
200-character excerpt of the original text. -/
def mkLackedReason (orig : List Char) : List Char :=
  "AI response was valid JSON but lacked expected fields: ".data ++
    (orig.take 200 ++ "...".data)

/-- `interpretAIJsonResponse` on char lists: the full pipeline with the
try/catch collapsed into explicit branching (the two throw points are the
missing-delimiter check and `JSON.parse`). -/
def interpretL (cs : List Char) : Bool × List Char :=
  match stageSlice cs with
  | none => (false, mkCatchReason cs noDelimMsg)
  | some s2 =>
    match jsonParse (stageNorm s2) with
    | .error e => (false, mkCatchReason cs e)
    | .ok j =>
      match validateShape j with
      | some (b, r) => (b, r)
      | none => (false, mkLackedReason cs)

/-- `interpretAIJsonResponse` (src/helpers/VisualTestHelper.ts, 175-224). -/
def interpretAIJsonResponse (s : String) : AnalysisResult :=
  ⟨(interpretL s.data).1, String.mk (interpretL s.data).2⟩

example : interpretAIJsonResponse "\x7b\"passed\": true, \"reason\": \"ok\"\x7d" =
    ⟨true, "ok"⟩ := by decide
example : interpretAIJsonResponse "```json\n\x7b\"passed\": false, \"reason\": \"x\"\x7d\n```" =
    ⟨false, "x"⟩ := by decide
example : interpretAIJsonResponse "\x7b\"passed\": true  \"reason\": \"ok\"\x7d" =
    ⟨true, "ok"⟩ := by decide
example : (interpretAIJsonResponse "no json here").passed = false := by decide
example : (interpretAIJsonResponse "\x7b\"ok\": true\x7d").passed = false := by decide

/-- `LLMResponse` (src/ai/LocalLLMService.ts): `{ text, success, error? }`. -/
structure LLMResponse where
  text : String
  success : Bool
  error : Option String
deriving DecidableEq

/-- `MultimodalLLMRequest` (src/ai/LocalLLMService.ts).  JavaScript numbers
are modelled as rationals. -/
structure MultimodalLLMRequest where
  prompt : String
  model : Option String
  temperature : Option ℚ
  maxTokens : Option Nat
  systemPrompt : Option String
  images : Option (List String)

/-- JavaScript `x || d` for an optional string: `undefined` and `""` are
falsy. -/
def jsOrStr (v : Option String) (d : String) : String :=
  match v with
  | none => d
  | some s => if s = "" then d else s

/-- JavaScript `x || d` for an optional number: `undefined` and `0` are
falsy. -/
def jsOrNum (v : Option ℚ) (d : ℚ) : ℚ :=
  match v with
  | none => d
  | some x => if x = 0 then d else x

/-- JavaScript `x || d` for an optional non-negative integer. -/
def jsOrNat (v : Option Nat) (d : Nat) : Nat :=
  match v with
  | none => d
  | some n => if n = 0 then d else n

/-- The JSON body `generateMultimodalResponse` posts to `<baseUrl>/generate`. -/
structure OllamaGeneratePayload where
  model : String
  prompt : String
  system : Option String
  temperature : ℚ
  max_tokens : Nat
  stream : Bool
  images : Option (List String)
deriving DecidableEq

/-- Payload construction of `LocalLLMService.generateMultimodalResponse`:
`model: request.model || this.defaultModel`,
`temperature: request.temperature || 0.2`, `max_tokens` first set to
`request.maxTokens || 1000` and then overwritten with
`request.maxTokens || 2048`, `images` only attached when present and
non-empty. -/
def buildMultimodalPayload (defaultModel : String) (req : MultimodalLLMRequest) :
    OllamaGeneratePayload :=
  { model := jsOrStr req.model defaultModel
    prompt := req.prompt
    system := req.systemPrompt
    temperature := jsOrNum req.temperature 0.2
    max_tokens := jsOrNat req.maxTokens 2048
    stream := false
    images :=
      match req.images with
      | some imgs => if imgs.length > 0 then some imgs else none
      | none => none }

/-- `LocalLLMService.generateMultimodalResponse`, with the `axios.post`
transport abstracted as a function argument: a successful post yields
`{text: response.data.response, success: true}`; any raised transport or
backend error is caught and converted to `{text: "", success: false,
error: <message>}` — the method never rethrows. -/
def generateMultimodalResponse (transport : OllamaGeneratePayload → Except String String)
    (defaultModel : String) (req : MultimodalLLMRequest) : LLMResponse :=
  match transport (buildMultimodalPayload defaultModel req) with
  | .ok text => { text := text, success := true, error := none }
  | .error e => { text := "", success := false, error := some e }

/-- `VisualAIResult` (src/helpers/VisualTestHelper.ts). -/
structure VisualAIResult where
  passed : Bool
  reason : String
  baselinePath : String
  actualPath : String
deriving DecidableEq

/-- Outcome of one orchestrator invocation: the returned result, the final
content of the baseline file for the logical name (`none` = absent), the
final content of the actual file, and how many gateway calls were made. -/
structure OrchOutcome where
  result : VisualAIResult
  finalBaseline : Option (List Nat)
  finalActual : List Nat
  llmCalls : Nat
deriving DecidableEq

/-- Baseline path for a logical name (relative to the project root):
`tests/visual-baselines/<name>.png`. -/
def baselinePathOf (name : String) : String :=
  "tests/visual-baselines/" ++ name ++ ".png"

/-- Actual-capture path for a logical name:
`test-results/visual-actuals/<name>.png`. -/
def actualPathOf (name : String) : String :=
  "test-results/visual-actuals/" ++ name ++ ".png"

/-- `expectPageToMatchVisuallyAI` (src/helpers/VisualTestHelper.ts, 47-160)
from the screenshot on: `baseline` is the content of the baseline file
before the call (`none` if the file does not exist), `shot` the bytes the
screenshot produced at the actual path, `response` the gateway reply that
`llmService.generateMultimodalResponse` would return if called.  The update
branch copies the actual file over the baseline; the comparison branch calls
the gateway exactly once, reads the baseline and writes nothing. -/
def expectPageToMatchVisuallyAI (baseline : Option (List Nat)) (name : String)
    (updateBaselines : Bool) (shot : List Nat) (response : LLMResponse) : OrchOutcome :=
  let baselinePath := baselinePathOf name
  let actualPath := actualPathOf name
  let baselineExists := baseline.isSome
  if updateBaselines || !baselineExists then
    { result := ⟨true, "Baseline created/updated.", baselinePath, actualPath⟩
      finalBaseline := some shot
      finalActual := shot
      llmCalls := 0 }
  else if !response.success then
    { result := ⟨false,
        "LLM service error during comparison for " ++ name ++ ": " ++
          (match response.error with | some e => e | none => "undefined"),
        baselinePath, actualPath⟩
      finalBaseline := baseline
      finalActual := shot
      llmCalls := 1 }
  else
    let analysis := interpretAIJsonResponse response.text
    { result := ⟨analysis.passed, analysis.reason, baselinePath, actualPath⟩
      finalBaseline := baseline
      finalActual := shot
      llmCalls := 1 }

/-- The two backends behind `ILLMService`. -/
inductive LLMServiceKind where
  | localService : LLMServiceKind
  | googleService : LLMServiceKind
deriving DecidableEq

/-- The `switch (Config.aiServiceMode)` of `LLMUtils.getLLMService`:
`"google"` tries the cloud service and falls back to the local one if its
constructor throws (no API key); every other mode takes the local service. -/
def selectServiceForMode (mode : String) (googleInitThrows : Bool) : LLMServiceKind :=
  if mode = "google" then
    if googleInitThrows then .localService else .googleService
  else .localService

/-- `LLMUtils.getLLMService` with the module-level singleton
`llmServiceInstance` passed explicitly: returns the chosen service and the
new singleton state. -/
def getLLMService (mode : String) (googleInitThrows : Bool)
    (llmServiceInstance : Option LLMServiceKind) : LLMServiceKind × Option LLMServiceKind :=
  match llmServiceInstance with
  | some inst => (inst, some inst)
  | none =>
    let k := selectServiceForMode mode googleInitThrows
    (k, some k)

/-- The backend the comparison pipeline actually uses: VisualTestHelper.ts
line 28 constructs `new LocalLLMService(Config.ollamaBaseUrl,
Config.ollamaDefaultModel)` at module load, unconditionally. -/
def visualHelperBackend : LLMServiceKind := .localService

theorem listIsPre_self_append (p t : List Char) : listIsPre p (p ++ t) = true := by
  induction p with
  | nil => rfl
  | cons c cs ih => simp [listIsPre, ih]

theorem listIsPre_mono (p a b : List Char) (h : listIsPre p a = true) :
    listIsPre p (a ++ b) = true := by
  induction p generalizing a with
  | nil => rfl
  | cons c cs ih =>
    cases a with
    | nil => simp [listIsPre] at h
    | cons x xs =>
      simp only [listIsPre, Bool.and_eq_true, decide_eq_true_eq] at h
      simp only [List.cons_append, listIsPre, Bool.and_eq_true, decide_eq_true_eq]
      exact ⟨h.1, ih xs h.2⟩

theorem listHas_mono (a b p : List Char) (h : listHas a p = true) :
    listHas (a ++ b) p = true := by
  induction a with
  | nil =>
    cases p with
    | nil => cases b <;> rfl
    | cons c cs => simp [listHas] at h
  | cons x xs ih =>
    cases p with
    | nil => rfl
    | cons c cs =>
      simp only [listHas, Bool.or_eq_true] at h
      rcases h with h | h
      · simp only [List.cons_append, listHas, Bool.or_eq_true]
        exact Or.inl (listIsPre_mono _ _ _ h)
      · simp only [List.cons_append, listHas, Bool.or_eq_true]
        exact Or.inr (ih h)

theorem listHas_middle (a p t : List Char) : listHas (a ++ (p ++ t)) p = true := by
  induction a with
  | nil =>
    cases p with
    | nil => cases t <;> rfl
    | cons c cs =>
      simp only [List.nil_append, listHas, Bool.or_eq_true]
      exact Or.inl (listIsPre_self_append _ _)
  | cons x xs ih =>
    cases p with
    | nil => rfl
    | cons c cs =>
      simp only [List.cons_append, listHas, Bool.or_eq_true]
      exact Or.inr ih

theorem listHas_at_end (a p : List Char) : listHas (a ++ p) p = true := by
  have := listHas_middle a p []
  simpa using this

/-- Claim C1: whenever no baseline file exists for the logical name or the
caller set `updateBaselines = true`, the orchestrator returns
`passed = true` with reason "Baseline created/updated.", the actual capture
is copied to the baseline path (so baseline and actual are byte-for-byte
equal), and the LLM gateway is never invoked on that path. -/
theorem baseline_short_circuit (baseline : Option (List Nat)) (name : String)
    (upd : Bool) (shot : List Nat) (response : LLMResponse)
    (h : upd = true ∨ baseline = none) :
    expectPageToMatchVisuallyAI baseline name upd shot response =
      { result := ⟨true, "Baseline created/updated.", baselinePathOf name, actualPathOf name⟩
        finalBaseline := some shot
        finalActual := shot
        llmCalls := 0 } ∧
    (expectPageToMatchVisuallyAI baseline name upd shot response).finalBaseline =
      some (expectPageToMatchVisuallyAI baseline name upd shot response).finalActual := by
  rcases h with h | h <;> subst h <;>
    simp [expectPageToMatchVisuallyAI]

theorem baseline_short_circuit_witness :
    expectPageToMatchVisuallyAI none "home" false [1, 2, 3] ⟨"", true, none⟩ =
      { result := ⟨true, "Baseline created/updated.", baselinePathOf "home", actualPathOf "home"⟩
        finalBaseline := some [1, 2, 3]
        finalActual := [1, 2, 3]
        llmCalls := 0 } ∧
    (expectPageToMatchVisuallyAI none "home" false [1, 2, 3] ⟨"", true, none⟩).finalBaseline =
      some (expectPageToMatchVisuallyAI none "home" false [1, 2, 3] ⟨"", true, none⟩).finalActual :=
  baseline_short_circuit none "home" false [1, 2, 3] ⟨"", true, none⟩ (Or.inr rfl)

/-- Claim C9: with an existing baseline and `updateBaselines` not set, the
orchestrator leaves the baseline file exactly as it was — for every gateway
response (success, failure, any text). -/
theorem baseline_never_written_on_compare (b : List Nat) (name : String)
    (shot : List Nat) (response : LLMResponse) :
    (expectPageToMatchVisuallyAI (some b) name false shot response).finalBaseline =
      some b := by
  by_cases hs : response.success = true <;>
    simp [expectPageToMatchVisuallyAI, hs]

/-- Claim C10: `request.temperature || 0.2` treats a caller-supplied 0 as
absent, so the payload temperature is never 0 and a 0 request maps to 0.2;
any non-zero request value passes through unchanged. -/
theorem temperature_zero_is_replaced :
    (∀ (dm : String) (req : MultimodalLLMRequest),
      (buildMultimodalPayload dm req).temperature ≠ 0) ∧
    (∀ (dm : String) (req : MultimodalLLMRequest), req.temperature = some 0 →
      (buildMultimodalPayload dm req).temperature = 0.2) ∧
    (∀ (dm : String) (req : MultimodalLLMRequest) (q : ℚ),
      req.temperature = some q → q ≠ 0 →
      (buildMultimodalPayload dm req).temperature = q) := by
  refine ⟨?_, ?_, ?_⟩
  · intro dm req
    simp only [buildMultimodalPayload, jsOrNum]
    match req.temperature with
    | none => norm_num
    | some x =>
      by_cases hx : x = 0 <;> simp [hx] <;> norm_num
  · intro dm req h
    simp [buildMultimodalPayload, jsOrNum, h]
  · intro dm req q h hq
    simp [buildMultimodalPayload, jsOrNum, h, hq]

theorem temperature_zero_is_replaced_witness :
    (buildMultimodalPayload "llava" ⟨"p", none, some 0, none, none, none⟩).temperature ≠ 0 ∧
    (buildMultimodalPayload "llava" ⟨"p", none, some 0, none, none, none⟩).temperature = 0.2 :=
  ⟨temperature_zero_is_replaced.1 "llava" ⟨"p", none, some 0, none, none, none⟩,
   temperature_zero_is_replaced.2.1 "llava" ⟨"p", none, some 0, none, none, none⟩ rfl⟩

/-- Claim C4: when the gateway reports failure, the orchestrator returns a
failing verdict whose reason contains the gateway's error string, makes
exactly one gateway call (no retry), and no exception escapes (the branch
yields a result); and the gateway itself converts any transport or backend
error into `{text: "", success: false, error: <message>}` instead of
throwing. -/
theorem gateway_failure_propagation (b : List Nat) (name : String) (shot : List Nat)
    (response : LLMResponse) (err : String)
    (hfail : response.success = false) (herr : response.error = some err) :
    (expectPageToMatchVisuallyAI (some b) name false shot response).result.passed = false ∧
    (expectPageToMatchVisuallyAI (some b) name false shot response).result.reason =
      "LLM service error during comparison for " ++ name ++ ": " ++ err ∧
    strContains
      (expectPageToMatchVisuallyAI (some b) name false shot response).result.reason
      err = true ∧
    (expectPageToMatchVisuallyAI (some b) name false shot response).llmCalls = 1 ∧
    (∀ (e dm : String) (req : MultimodalLLMRequest),
      generateMultimodalResponse (fun _ => .error e) dm req =
        { text := "", success := false, error := some e }) := by
  refine ⟨?_, ?_, ?_, ?_, ?_⟩
  · simp [expectPageToMatchVisuallyAI, hfail]
  · simp [expectPageToMatchVisuallyAI, hfail, herr]
  · have hr : (expectPageToMatchVisuallyAI (some b) name false shot response).result.reason =
        "LLM service error during comparison for " ++ name ++ ": " ++ err := by
      simp [expectPageToMatchVisuallyAI, hfail, herr]
    rw [hr]
    show listHas _ _ = true
    have hdata : ("LLM service error during comparison for " ++ name ++ ": " ++ err).data =
        (("LLM service error during comparison for " ++ name ++ ": ").data) ++ err.data := by
      simp [String.data_append]
    rw [hdata]
    exact listHas_at_end _ _
  · simp [expectPageToMatchVisuallyAI, hfail]
  · intro e dm req
    rfl

theorem gateway_failure_propagation_witness :
    (expectPageToMatchVisuallyAI (some [7]) "page" false [8] ⟨"", false, some "timeout"⟩).result.passed = false ∧
    (expectPageToMatchVisuallyAI (some [7]) "page" false [8] ⟨"", false, some "timeout"⟩).result.reason =
      "LLM service error during comparison for " ++ "page" ++ ": " ++ "timeout" ∧
    strContains
      (expectPageToMatchVisuallyAI (some [7]) "page" false [8] ⟨"", false, some "timeout"⟩).result.reason
      "timeout" = true ∧
    (expectPageToMatchVisuallyAI (some [7]) "page" false [8] ⟨"", false, some "timeout"⟩).llmCalls = 1 ∧
    (∀ (e dm : String) (req : MultimodalLLMRequest),
      generateMultimodalResponse (fun _ => .error e) dm req =
        { text := "", success := false, error := some e }) :=
  gateway_failure_propagation [7] "page" [8] ⟨"", false, some "timeout"⟩ "timeout" rfl rfl

/-- Claim C3 counterexample: the claim says the backend used by the
comparison pipeline is the one selected by the configuration flag; but with
`AI_SERVICE_MODE = "google"` and a working cloud initialization the factory
selects the Google service while the comparison pipeline still uses its own
hard-wired local service (VisualTestHelper.ts line 28 never consults
`LLMUtils.getLLMService`). -/
theorem pipeline_backend_counterexample :
    visualHelperBackend ≠ (getLLMService "google" false none).1 := by
  decide

/-- Claim C3 (amended): `LLMUtils.getLLMService` selects once per process —
an existing singleton is returned unchanged, a first call stores its choice;
the flag chooses Google for mode "google" (falling back to the local service
when cloud initialization throws) and the local service otherwise — but the
comparison pipeline does not consult it: it always uses a local backend
constructed once at module load. -/
theorem backend_selection_amended :
    (∀ (mode : String) (gthrows : Bool) (inst : LLMServiceKind),
      getLLMService mode gthrows (some inst) = (inst, some inst)) ∧
    (∀ (mode : String) (gthrows : Bool),
      getLLMService mode gthrows none =
        (selectServiceForMode mode gthrows, some (selectServiceForMode mode gthrows))) ∧
    selectServiceForMode "google" false = .googleService ∧
    selectServiceForMode "google" true = .localService ∧
    (∀ gthrows : Bool, selectServiceForMode "local" gthrows = .localService) ∧
    visualHelperBackend = .localService := by
  refine ⟨fun _ _ _ => rfl, fun _ _ => rfl, rfl, rfl, fun g => rfl, rfl⟩

theorem append_ne_nil_left (a b : List Char) (h : a ≠ []) : a ++ b ≠ [] := by
  cases a with
  | nil => exact absurd rfl h
  | cons x xs => simp

theorem mkCatchReason_ne_nil (orig msg : List Char) : mkCatchReason orig msg ≠ [] := by
  obtain ⟨c, t, hct⟩ :
      ∃ c t, ("AI response could not be parsed as valid JSON: ").data = c :: t :=
    ⟨_, _, rfl⟩
  unfold mkCatchReason
  rw [hct]
  simp

theorem mkLackedReason_ne_nil (orig : List Char) : mkLackedReason orig ≠ [] := by
  obtain ⟨c, t, hct⟩ :
      ∃ c t, ("AI response was valid JSON but lacked expected fields: ").data = c :: t :=
    ⟨_, _, rfl⟩
  unfold mkLackedReason
  rw [hct]
  simp

theorem mk_ne_empty (l : List Char) (h : l ≠ []) : String.mk l ≠ "" := by
  intro hc
  apply h
  have : (String.mk l).data = ("" : String).data := by rw [hc]
  simpa using this

/-- Claim C2: the interpreter is a total function (the embedding returns a
verdict for every input string; the source's try/catch guarantees no throw
escapes), every failure mode — missing brace delimiters, JSON parse error,
wrong shape — yields `passed = false` with a non-empty diagnostic reason,
and a passing verdict can only arise from a successfully parsed JSON object
with a boolean `passed: true` and a string `reason`. -/
theorem interpreter_never_silent (s : String) :
    (stageSlice s.data = none →
      interpretAIJsonResponse s = ⟨false, String.mk (mkCatchReason s.data noDelimMsg)⟩) ∧
    (∀ s2 e, stageSlice s.data = some s2 → jsonParse (stageNorm s2) = .error e →
      interpretAIJsonResponse s = ⟨false, String.mk (mkCatchReason s.data e)⟩) ∧
    (∀ s2 j, stageSlice s.data = some s2 → jsonParse (stageNorm s2) = .ok j →
      validateShape j = none →
      interpretAIJsonResponse s = ⟨false, String.mk (mkLackedReason s.data)⟩) ∧
    (∀ orig msg : List Char, String.mk (mkCatchReason orig msg) ≠ "") ∧
    (∀ orig : List Char, String.mk (mkLackedReason orig) ≠ "") ∧
    ((interpretAIJsonResponse s).passed = true →
      ∃ s2 j r, stageSlice s.data = some s2 ∧ jsonParse (stageNorm s2) = .ok j ∧
        validateShape j = some (true, r) ∧
        (interpretAIJsonResponse s).reason = String.mk r) := by
  refine ⟨?_, ?_, ?_,
    fun orig msg => mk_ne_empty _ (mkCatchReason_ne_nil orig msg),
    fun orig => mk_ne_empty _ (mkLackedReason_ne_nil orig), ?_⟩
  · intro h
    simp [interpretAIJsonResponse, interpretL, h]
  · intro s2 e h1 h2
    simp [interpretAIJsonResponse, interpretL, h1, h2]
  · intro s2 j h1 h2 h3
    simp [interpretAIJsonResponse, interpretL, h1, h2, h3]
  · intro hp
    unfold interpretAIJsonResponse interpretL at hp ⊢
    match hslice : stageSlice s.data with
    | none => simp [hslice] at hp
    | some s2 =>
      match hparse : jsonParse (stageNorm s2) with
      | .error e => simp [hslice, hparse] at hp
      | .ok j =>
        match hval : validateShape j with
        | none => simp [hslice, hparse, hval] at hp
        | some (bb, rr) =>
          simp only [hslice, hparse, hval] at hp
          refine ⟨s2, j, rr, rfl, hparse, ?_, ?_⟩
          · rw [← hp]
            exact hval
          · simp only [hslice, hparse, hval]

theorem interpreter_never_silent_witness :
    interpretAIJsonResponse "oops" =
      ⟨false, String.mk (mkCatchReason "oops".data noDelimMsg)⟩ ∧
    interpretAIJsonResponse "\x7bbad\x7d" =
      ⟨false, String.mk (mkCatchReason "\x7bbad\x7d".data
        "Expected double-quoted property name in JSON object".data)⟩ ∧
    interpretAIJsonResponse "\x7b\"ok\": true\x7d" =
      ⟨false, String.mk (mkLackedReason "\x7b\"ok\": true\x7d".data)⟩ ∧
    (∃ s2 j r, stageSlice "\x7b\"passed\": true, \"reason\": \"y\"\x7d".data = some s2 ∧
      jsonParse (stageNorm s2) = .ok j ∧ validateShape j = some (true, r) ∧
      (interpretAIJsonResponse "\x7b\"passed\": true, \"reason\": \"y\"\x7d").reason =
        String.mk r) :=
  ⟨(interpreter_never_silent "oops").1 (by decide),
   (interpreter_never_silent "\x7bbad\x7d").2.1 "\x7bbad\x7d".data
     "Expected double-quoted property name in JSON object".data (by decide) rfl,
   (interpreter_never_silent "\x7b\"ok\": true\x7d").2.2.1 "\x7b\"ok\": true\x7d".data
     (.jobj [("ok".data, .jbool true)]) (by decide) rfl rfl,
   (interpreter_never_silent "\x7b\"passed\": true, \"reason\": \"y\"\x7d").2.2.2.2.2
     (by decide)⟩

theorem extractBraced_eq_none (l : List Char) (h : ('\x7b' ∉ l) ∨ ('\x7d' ∉ l)) :
    extractBraced l = none := by
  rcases h with h | h
  · have h1 : l.dropWhile (fun c => !(c = '\x7b')) = [] := by
      rw [List.dropWhile_eq_nil_iff]
      intro x hx
      simp only [Bool.not_eq_true', decide_eq_false_iff_not]
      intro hxx
      exact h (hxx ▸ hx)
    simp [extractBraced, h1]
  · have h1 : (l.dropWhile (fun c => !(c = '\x7b'))).reverse.dropWhile
        (fun c => !(c = '\x7d')) = [] := by
      rw [List.dropWhile_eq_nil_iff]
      intro x hx
      simp only [Bool.not_eq_true', decide_eq_false_iff_not]
      intro hxx
      apply h
      rw [← hxx]
      exact (List.dropWhile_sublist _).subset (List.mem_reverse.mp hx)
    simp [extractBraced, h1]

/-- Claim C7 counterexample: for an input with no braces the verdict does
fail, but its reason never literally mentions "no JSON" — the code's message
is "Could not find valid JSON object delimiters ... in response." (wrapped
by the catch block), not the spec's "no JSON object found". -/
theorem no_delimiters_counterexample :
    (interpretAIJsonResponse "hello").passed = false ∧
    strContains (interpretAIJsonResponse "hello").reason "no JSON" = false ∧
    strContains (interpretAIJsonResponse "hello").reason
      "Could not find valid JSON object delimiters \x7b\x7d in response." = true := by
  decide

/-- Claim C7 (amended): for every input with no opening or no closing brace
after fence stripping and trimming, the interpreter fails with the catch
reason wrapping "Could not find valid JSON object delimiters ... in
response." (rather than the spec's literal "no JSON object found"). -/
theorem no_delimiters_fails (s : String)
    (h : ('\x7b' ∉ stage1 s.data) ∨ ('\x7d' ∉ stage1 s.data)) :
    interpretAIJsonResponse s = ⟨false, String.mk (mkCatchReason s.data noDelimMsg)⟩ ∧
    strContains (String.mk (mkCatchReason s.data noDelimMsg))
      "Could not find valid JSON object delimiters" = true := by
  constructor
  · have hnone : stageSlice s.data = none := extractBraced_eq_none _ h
    simp [interpretAIJsonResponse, interpretL, hnone]
  · show listHas _ _ = true
    unfold mkCatchReason noDelimMsg
    apply listHas_mono
    decide

theorem no_delimiters_fails_witness :
    interpretAIJsonResponse "no braces at all" =
      ⟨false, String.mk (mkCatchReason "no braces at all".data noDelimMsg)⟩ ∧
    strContains (String.mk (mkCatchReason "no braces at all".data noDelimMsg))
      "Could not find valid JSON object delimiters" = true :=
  no_delimiters_fails "no braces at all" (by decide)

/-- Claim C8: an input that slices and parses as JSON but lacks a boolean
`passed` or a string `reason` yields a failing verdict whose reason notes
the missing fields and embeds the original text truncated to 200
characters. -/
theorem wrong_shape_fails (s : String) (s2 : List Char) (j : Json)
    (h1 : stageSlice s.data = some s2) (h2 : jsonParse (stageNorm s2) = .ok j)
    (h3 : validateShape j = none) :
    interpretAIJsonResponse s = ⟨false, String.mk (mkLackedReason s.data)⟩ ∧
    strContains (String.mk (mkLackedReason s.data)) "lacked expected fields" = true ∧
    listHas (mkLackedReason s.data) (s.data.take 200) = true := by
  refine ⟨?_, ?_, ?_⟩
  · simp [interpretAIJsonResponse, interpretL, h1, h2, h3]
  · show listHas _ _ = true
    unfold mkLackedReason
    apply listHas_mono
    decide
  · unfold mkLackedReason
    exact listHas_middle _ _ _

theorem wrong_shape_fails_witness :
    interpretAIJsonResponse "\x7b\"ok\": true\x7d" =
      ⟨false, String.mk (mkLackedReason "\x7b\"ok\": true\x7d".data)⟩ ∧
    strContains (String.mk (mkLackedReason "\x7b\"ok\": true\x7d".data))
      "lacked expected fields" = true ∧
    listHas (mkLackedReason "\x7b\"ok\": true\x7d".data)
      ("\x7b\"ok\": true\x7d".data.take 200) = true :=
  wrong_shape_fails "\x7b\"ok\": true\x7d" "\x7b\"ok\": true\x7d".data
    (.jobj [("ok".data, .jbool true)]) (by decide) rfl rfl

theorem fixCommaAux_no_match (rest : List Char) : ∀ out rorig,
    (∀ n, n ≤ rest.length →
      ¬(lookbehindOk ((rest.take n).reverse ++ rorig) = true ∧
        aheadOk (rest.drop n) = true)) →
    fixCommaAux out rorig rest = out.reverse ++ rest := by
  induction rest with
  | nil =>
    intro out rorig _
    simp [fixCommaAux]
  | cons c rest ih =>
    intro out rorig h
    have h0 := h 0 (Nat.zero_le _)
    simp only [List.take_zero, List.reverse_nil, List.nil_append, List.drop_zero] at h0
    have hcond : (lookbehindOk rorig && aheadOk (c :: rest)) = false := by
      cases hl : lookbehindOk rorig
      · rfl
      · cases ha : aheadOk (c :: rest)
        · rfl
        · exact absurd ⟨hl, ha⟩ h0
    have h' : ∀ n, n ≤ rest.length →
        ¬(lookbehindOk ((rest.take n).reverse ++ (c :: rorig)) = true ∧
          aheadOk (rest.drop n) = true) := by
      intro n hn
      have := h (n + 1) (Nat.succ_le_succ hn)
      simp only [List.take_succ_cons, List.reverse_cons, List.drop_succ_cons,
        List.append_assoc, List.singleton_append] at this
      exact this
    simp only [fixCommaAux, hcond, Bool.false_eq_true, if_false]
    rw [ih (c :: out) (c :: rorig) h']
    simp

/-- Claim C6: the single repair the interpreter applies is inserting the
comma missing between `"passed": <bool>` and `"reason":` — the documented
malformed input is repaired and parsed to `(passed := true, reason := "ok")`,
and on any text with no occurrence of that pattern the repair step is the
identity (no other repair is attempted). -/
theorem comma_repair_exactly_one :
    interpretAIJsonResponse "\x7b\"passed\": true  \"reason\": \"ok\"\x7d" = ⟨true, "ok"⟩ ∧
    fixMissingComma "\x7b\"passed\": true  \"reason\": \"ok\"\x7d".data =
      "\x7b\"passed\": true,  \"reason\": \"ok\"\x7d".data ∧
    (∀ cs : List Char,
      (∀ n, n ≤ cs.length →
        ¬(lookbehindOk ((cs.take n).reverse) = true ∧ aheadOk (cs.drop n) = true)) →
      fixMissingComma cs = cs) := by
  refine ⟨by decide, by decide, ?_⟩
  intro cs h
  unfold fixMissingComma
  rw [fixCommaAux_no_match cs [] []]
  · rfl
  · intro n hn
    simpa using h n hn

theorem comma_repair_exactly_one_witness :
    fixMissingComma "\x7b\"passed\": true, \"reason\": \"ok\"\x7d".data =
      "\x7b\"passed\": true, \"reason\": \"ok\"\x7d".data :=
  comma_repair_exactly_one.2.2 "\x7b\"passed\": true, \"reason\": \"ok\"\x7d".data
    (by decide)

theorem listIsPre_append_short (q : List Char) : ∀ (p r : List Char),
    listIsPre q (p ++ r) = true → p.length < q.length →
    listIsPre (q.drop p.length) r = true := by
  induction q with
  | nil =>
    intro p r _ hl
    exact absurd hl (by simp)
  | cons a q ih =>
    intro p r h hl
    cases p with
    | nil => simpa using h
    | cons c p' =>
      simp only [List.cons_append, listIsPre, Bool.and_eq_true, decide_eq_true_eq] at h
      simp only [List.length_cons, Nat.add_lt_add_iff_right] at hl
      simpa using ih p' r h.2 hl

theorem listIsPre_head_eq (a b : Char) (l m : List Char)
    (h : listIsPre (a :: l) (b :: m) = true) : a = b := by
  simp only [listIsPre, Bool.and_eq_true, decide_eq_true_eq] at h
  exact h.1

theorem listIsPre_cross (q p : List Char) (c : Char) (t : List Char)
    (h : listIsPre q (p ++ c :: t) = true) (hl : p.length < q.length) : c ∈ q := by
  have h2 := listIsPre_append_short q p (c :: t) h hl
  have h3 : q.drop p.length = q[p.length] :: q.drop (p.length + 1) :=
    List.drop_eq_getElem_cons hl
  rw [h3] at h2
  have h4 := listIsPre_head_eq _ _ _ _ h2
  rw [← h4]
  exact List.getElem_mem hl

theorem strip_cons_ne (c : Char) (l : List Char)
    (h : ¬ listIsPre ['`', '`', '`', 'j', 's', 'o', 'n'] (c :: l) = true) :
    stripFencesJson (c :: l) = c :: stripFencesJson l := by
  rw [stripFencesJson.eq_def]
  split
  · exfalso
    apply h
    rename_i heq
    injection heq with h1 h2
    subst h1
    subst h2
    simp [listIsPre]
  · exfalso
    apply h
    rename_i heq
    injection heq with h1 h2
    subst h1
    subst h2
    simp [listIsPre]
  · rename_i heq
    injection heq with h1 h2
    subst h1
    subst h2
    rfl
  · rename_i heq
    simp at heq

theorem strip_match_nl (l : List Char) :
    stripFencesJson ('`' :: '`' :: '`' :: 'j' :: 's' :: 'o' :: 'n' :: '\n' :: l) =
      stripFencesJson l := rfl

theorem strip_match_nil :
    stripFencesJson ['`', '`', '`', 'j', 's', 'o', 'n'] = [] := rfl

theorem strip_match_other (c : Char) (l : List Char) (h : c ≠ '\n') :
    stripFencesJson ('`' :: '`' :: '`' :: 'j' :: 's' :: 'o' :: 'n' :: c :: l) =
      stripFencesJson (c :: l) := by
  rw [stripFencesJson.eq_def]
  split
  · rename_i heq
    exfalso
    apply h
    injection heq with e1 heq
    injection heq with e2 heq
    injection heq with e3 heq
    injection heq with e4 heq
    injection heq with e5 heq
    injection heq with e6 heq
    injection heq with e7 heq
    injection heq with e8 heq
  · rename_i heq
    injection heq with e1 heq
    injection heq with e2 heq
    injection heq with e3 heq
    injection heq with e4 heq
    injection heq with e5 heq
    injection heq with e6 heq
    injection heq with e7 heq
    rw [heq]
  · rename_i heq
    exfalso
    rename_i hno1 hno2
    injection heq with e1 heq
    exact hno2 (c :: l) e1.symm heq.symm
  · rename_i heq
    simp at heq

theorem strip_no_tick : ∀ (t rest : List Char), (∀ c ∈ t, c ≠ '`') →
    stripFencesJson (t ++ rest) = t ++ stripFencesJson rest := by
  intro t
  induction t with
  | nil => intro rest _; rfl
  | cons c t' ih =>
    intro rest h
    have hc : c ≠ '`' := h c (List.mem_cons_self c t')
    have hnp : ¬ listIsPre ['`', '`', '`', 'j', 's', 'o', 'n'] (c :: (t' ++ rest)) = true := by
      simp only [listIsPre, Bool.and_eq_true, decide_eq_true_eq]
      intro hcon
      exact hc hcon.1.symm
    rw [List.cons_append, strip_cons_ne c (t' ++ rest) hnp,
      ih rest (fun x hx => h x (List.mem_cons_of_mem c hx))]
    simp

theorem strip_append_brace : ∀ (n : Nat) (p rest : List Char), p.length ≤ n →
    rest.head? = some '\x7b' →
    stripFencesJson (p ++ rest) = stripFencesJson p ++ stripFencesJson rest := by
  intro n
  induction n with
  | zero =>
    intro p rest hl _
    have : p = [] := List.eq_nil_of_length_eq_zero (Nat.le_zero.mp hl)
    subst this
    rfl
  | succ n ih =>
    intro p rest hl hhead
    obtain ⟨hc, t, rfl⟩ : ∃ (hc : Char) (t : List Char), rest = hc :: t := by
      cases rest with
      | nil => simp at hhead
      | cons a t => exact ⟨a, t, rfl⟩
    have hhd : hc = '\x7b' := by simpa using hhead
    subst hhd
    cases p with
    | nil => rfl
    | cons c p' =>
      by_cases hm : listIsPre ['`', '`', '`', 'j', 's', 'o', 'n'] ((c :: p') ++ '\x7b' :: t) = true
      · -- a fence pattern starts here; it must lie entirely inside c :: p'
        have hlong : 7 ≤ (c :: p').length := by
          by_contra hshort
          push_neg at hshort
          have hmem := listIsPre_cross _ _ _ _ hm (by simpa using hshort)
          simp at hmem
        -- destructure the first seven characters of c :: p'
        match p', hlong with
        | b2 :: b3 :: b4 :: b5 :: b6 :: b7 :: p'', _ =>
          simp only [List.cons_append, listIsPre, Bool.and_eq_true, decide_eq_true_eq,
            List.nil_append, and_true] at hm
          obtain ⟨a1, a2, a3, a4, a5, a6, a7⟩ := hm
          subst a1
          subst a2
          subst a3
          subst a4
          subst a5
          subst a6
          subst a7
          have hlen'' : p''.length + 7 ≤ n + 1 := by simpa using hl
          cases p'' with
          | nil =>
            rw [show ((['`', '`', '`', 'j', 's', 'o', 'n'] : List Char) ++ '\x7b' :: t) =
              ('`' :: '`' :: '`' :: 'j' :: 's' :: 'o' :: 'n' :: '\x7b' :: t) from rfl,
              strip_match_other '\x7b' t (by decide), strip_match_nil]
            rfl
          | cons d p3 =>
            by_cases hd : d = '\n'
            · subst hd
              rw [show (('`' :: '`' :: '`' :: 'j' :: 's' :: 'o' :: 'n' :: '\n' :: p3 : List Char) ++ '\x7b' :: t) =
                ('`' :: '`' :: '`' :: 'j' :: 's' :: 'o' :: 'n' :: '\n' :: (p3 ++ '\x7b' :: t)) from by simp,
                strip_match_nl, strip_match_nl]
              exact ih p3 ('\x7b' :: t) (by simp only [List.length_cons] at hlen''; omega) rfl
            · rw [show (('`' :: '`' :: '`' :: 'j' :: 's' :: 'o' :: 'n' :: d :: p3 : List Char) ++ '\x7b' :: t) =
                ('`' :: '`' :: '`' :: 'j' :: 's' :: 'o' :: 'n' :: d :: (p3 ++ '\x7b' :: t)) from by simp,
                strip_match_other d _ hd, strip_match_other d _ hd]
              have := ih (d :: p3) ('\x7b' :: t) (by simp only [List.length_cons] at hlen'' ⊢; omega) rfl
              simpa using this
      · -- no pattern here: emit the head character on both sides
        have hm' : ¬ listIsPre ['`', '`', '`', 'j', 's', 'o', 'n'] (c :: p') = true := by
          intro hcon
          exact hm (by simpa using listIsPre_mono _ _ ('\x7b' :: t) hcon)
        rw [List.cons_append, strip_cons_ne c (p' ++ '\x7b' :: t) (by simpa using hm),
          strip_cons_ne c p' hm', ih p' ('\x7b' :: t) (by simpa using hl) rfl]
        simp

theorem listIsPre_exists (q : List Char) : ∀ l, listIsPre q l = true → ∃ t, l = q ++ t := by
  induction q with
  | nil => exact fun l _ => ⟨l, rfl⟩
  | cons a q ih =>
    intro l h
    cases l with
    | nil => simp [listIsPre] at h
    | cons b m =>
      simp only [listIsPre, Bool.and_eq_true, decide_eq_true_eq] at h
      obtain ⟨t, ht⟩ := ih m h.2
      exact ⟨t, by rw [← h.1, ht]; rfl⟩

theorem strip_subset : ∀ (l : List Char) (c : Char), c ∈ stripFencesJson l → c ∈ l := by
  intro l
  induction l using stripFencesJson.induct with
  | case1 rest ih =>
    intro c hc
    rw [strip_match_nl] at hc
    simp [ih c hc]
  | case2 rest hnl ih =>
    intro c hc
    have hs : stripFencesJson ('`' :: '`' :: '`' :: 'j' :: 's' :: 'o' :: 'n' :: rest) =
        stripFencesJson rest := by
      cases rest with
      | nil => exact strip_match_nil
      | cons d r =>
        have hd : d ≠ '\n' := fun hh => hnl r (by rw [hh])
        exact strip_match_other d r hd
    rw [hs] at hc
    simp [ih c hc]
  | case3 d rest hno1 hno2 ih =>
    intro c hc
    have hnp : ¬ listIsPre ['`', '`', '`', 'j', 's', 'o', 'n'] (d :: rest) = true := by
      intro hp
      obtain ⟨t, ht⟩ := listIsPre_exists _ _ hp
      injection ht with h1 h2
      exact hno2 t h1 h2
    rw [strip_cons_ne d rest hnp] at hc
    rcases List.mem_cons.mp hc with h | h
    · simp [h]
    · simp [ih c h]
  | case4 =>
    intro c hc
    rw [show stripFencesJson [] = ([] : List Char) from rfl] at hc
    simp at hc

theorem stripTrailingFence_part (v B : List Char) :
    ∃ B', stripTrailingFence (v ++ '\x7d' :: B) = v ++ '\x7d' :: B' ∧ ∀ c ∈ B', c ∈ B := by
  unfold stripTrailingFence
  have hrev : (v ++ '\x7d' :: B).reverse = B.reverse ++ '\x7d' :: v.reverse := by
    simp
  rw [hrev]
  by_cases hm : listIsPre ['`', '`', '`'] (B.reverse ++ '\x7d' :: v.reverse) = true
  · rw [if_pos hm]
    have h3 : 3 ≤ B.reverse.length := by
      by_contra hshort
      push_neg at hshort
      have := listIsPre_cross _ _ _ _ hm (by simpa using hshort)
      simp at this
    rw [List.drop_append_of_le_length h3]
    refine ⟨(B.reverse.drop 3).reverse, by simp, ?_⟩
    intro c hc
    rw [List.mem_reverse] at hc
    exact List.mem_reverse.mp (List.mem_of_mem_drop hc)
  · rw [if_neg hm]
    exact ⟨B, rfl, fun c hc => hc⟩

theorem jsTrim_part (A z B : List Char) :
    ∃ A' B', jsTrim (A ++ '\x7b' :: (z ++ '\x7d' :: B)) =
      A' ++ '\x7b' :: (z ++ '\x7d' :: B') ∧
      (∀ c ∈ A', c ∈ A) ∧ (∀ c ∈ B', c ∈ B) := by
  unfold jsTrim
  have step1 : (A ++ '\x7b' :: (z ++ '\x7d' :: B)).dropWhile isJsSpace =
      A.dropWhile isJsSpace ++ '\x7b' :: (z ++ '\x7d' :: B) := by
    rw [List.dropWhile_append]
    by_cases hA : (A.dropWhile isJsSpace).isEmpty = true
    · rw [if_pos hA]
      rw [List.isEmpty_iff] at hA
      rw [hA, List.nil_append, List.dropWhile_cons]
      simp [isJsSpace]
    · rw [if_neg hA]
  rw [step1]
  set A1 := A.dropWhile isJsSpace with hA1
  have hrev : (A1 ++ '\x7b' :: (z ++ '\x7d' :: B)).reverse =
      B.reverse ++ '\x7d' :: (z.reverse ++ '\x7b' :: A1.reverse) := by
    simp
  rw [hrev]
  have step2 : (B.reverse ++ '\x7d' :: (z.reverse ++ '\x7b' :: A1.reverse)).dropWhile isJsSpace =
      B.reverse.dropWhile isJsSpace ++ '\x7d' :: (z.reverse ++ '\x7b' :: A1.reverse) := by
    rw [List.dropWhile_append]
    by_cases hB : (B.reverse.dropWhile isJsSpace).isEmpty = true
    · rw [if_pos hB]
      rw [List.isEmpty_iff] at hB
      rw [hB, List.nil_append, List.dropWhile_cons]
      simp [isJsSpace]
    · rw [if_neg hB]
  rw [step2]
  refine ⟨A1, (B.reverse.dropWhile isJsSpace).reverse, ?_, ?_, ?_⟩
  · simp
  · intro c hc
    exact (List.dropWhile_sublist _).subset hc
  · intro c hc
    rw [List.mem_reverse] at hc
    exact List.mem_reverse.mp ((List.dropWhile_sublist _).subset hc)

theorem extractBraced_inner (A z B : List Char)
    (hA : ∀ c ∈ A, ¬ c = '\x7b') (hB : ∀ c ∈ B, ¬ c = '\x7d') :
    extractBraced (A ++ '\x7b' :: (z ++ '\x7d' :: B)) = some ('\x7b' :: (z ++ ['\x7d'])) := by
  unfold extractBraced
  have step1 : (A ++ '\x7b' :: (z ++ '\x7d' :: B)).dropWhile (fun c => !(c = '\x7b')) =
      '\x7b' :: (z ++ '\x7d' :: B) := by
    rw [List.dropWhile_append]
    have hA0 : A.dropWhile (fun c => !(c = '\x7b')) = [] := by
      rw [List.dropWhile_eq_nil_iff]
      intro x hx
      simpa using hA x hx
    rw [hA0]
    simp only [List.isEmpty_nil, if_true]
    rw [List.dropWhile_cons]
    simp
  rw [step1]
  have hrev : ('\x7b' :: (z ++ '\x7d' :: B)).reverse =
      B.reverse ++ '\x7d' :: (z.reverse ++ ['\x7b']) := by
    simp
  rw [hrev]
  have step2 : (B.reverse ++ '\x7d' :: (z.reverse ++ ['\x7b'])).dropWhile
      (fun c => !(c = '\x7d')) = '\x7d' :: (z.reverse ++ ['\x7b']) := by
    rw [List.dropWhile_append]
    have hB0 : B.reverse.dropWhile (fun c => !(c = '\x7d')) = [] := by
      rw [List.dropWhile_eq_nil_iff]
      intro x hx
      simpa using hB x (List.mem_reverse.mp hx)
    rw [hB0]
    simp only [List.isEmpty_nil, if_true]
    rw [List.dropWhile_cons]
    simp
  rw [step2]
  simp

theorem replaceNewlines_id (l : List Char) (h : ∀ c ∈ l, c ≠ '\n' ∧ c ≠ '\r') :
    replaceNewlines l = l := by
  unfold replaceNewlines
  rw [List.map_congr_left (g := id), List.map_id,
    List.map_congr_left (g := id), List.map_id]
  · intro c hc
    simp [(h c hc).1]
  · intro c hc
    rw [List.map_congr_left (g := id), List.map_id] at hc
    · simp [(h c hc).2]
    · intro d hd
      simp [(h d hd).1]

theorem listIsPre_head_ne (p c : Char) (ps cs : List Char) (h : ¬ p = c) :
    listIsPre (p :: ps) (c :: cs) = false := by
  simp [listIsPre, h]

theorem aheadOk_head_bad (c : Char) (l : List Char) (h1 : isJsSpace c = false)
    (h2 : c ≠ '"') : aheadOk (c :: l) = false := by
  unfold aheadOk
  rw [List.dropWhile_cons, if_neg (by simp [h1])]
  exact listIsPre_head_ne _ _ _ _ (fun hh => h2 hh.symm)

theorem lookbehind_quote (l : List Char) : lookbehindOk ('"' :: l) = false := by
  unfold lookbehindOk
  rw [listIsPre_head_ne 'e' '"' _ _ (by decide), listIsPre_head_ne 'e' '"' _ _ (by decide)]
  simp

theorem lookbehind_rbrace (l : List Char) : lookbehindOk ('\x7d' :: l) = false := by
  unfold lookbehindOk
  rw [listIsPre_head_ne 'e' '\x7d' _ _ (by decide), listIsPre_head_ne 'e' '\x7d' _ _ (by decide)]
  simp

theorem pre_passed_fails (u t : List Char) (hu : ∀ c ∈ u, c ≠ '"') :
    listIsPre [':', '"', 'd', 'e', 's', 's', 'a', 'p', '"']
      ((u ++ '"' :: ' ' :: t).dropWhile isJsSpace) = false := by
  rw [List.dropWhile_append]
  by_cases hue : (u.dropWhile isJsSpace).isEmpty = true
  · rw [if_pos hue]
    rw [List.dropWhile_cons, if_neg (by simp [isJsSpace])]
    exact listIsPre_head_ne _ _ _ _ (by decide)
  · rw [if_neg hue]
    match hd : u.dropWhile isJsSpace, hue with
    | c :: d', _ =>
      have hcu : c ∈ u := (List.dropWhile_sublist _).subset (by rw [hd]; simp)
      by_cases hc : c = ':'
      · subst hc
        cases d' with
        | nil =>
          simp [listIsPre]
        | cons c2 d'' =>
          have hc2 : c2 ∈ u := by
            apply (List.dropWhile_sublist _).subset
            rw [hd]
            simp
          have hne : ¬ ('"' = c2) := fun hh => (hu c2 hc2) hh.symm
          simp [listIsPre, hne]
      · simp only [List.cons_append]
        exact listIsPre_head_ne _ _ _ _ (fun hh => hc hh.symm)

theorem lb_safe (xr t : List Char) (hx : ∀ c ∈ xr, c ≠ '"') :
    lookbehindOk (xr ++ '"' :: ' ' :: t) = false := by
  have part : ∀ (q : List Char), q = ['e', 'u', 'r', 't'] ∨ q = ['e', 's', 'l', 'a', 'f'] →
      listIsPre q (xr ++ '"' :: ' ' :: t) = true →
      listIsPre [':', '"', 'd', 'e', 's', 's', 'a', 'p', '"']
        (((xr ++ '"' :: ' ' :: t).drop q.length).dropWhile isJsSpace) = false := by
    intro q hq hpre
    have hlong : q.length ≤ xr.length := by
      by_contra hshort
      push_neg at hshort
      have hmem := listIsPre_cross q xr '"' (' ' :: t) hpre hshort
      rcases hq with h | h
      · subst h
        simp at hmem
      · subst h
        simp at hmem
    rw [List.drop_append_of_le_length hlong]
    apply pre_passed_fails
    intro c hc
    exact hx c (List.mem_of_mem_drop hc)
  unfold lookbehindOk
  by_cases h1 : listIsPre ['e', 'u', 'r', 't'] (xr ++ '"' :: ' ' :: t) = true
  · by_cases h2 : listIsPre ['e', 's', 'l', 'a', 'f'] (xr ++ '"' :: ' ' :: t) = true
    · rw [if_pos h1, if_pos h2]
      have p1 := part ['e', 'u', 'r', 't'] (Or.inl rfl) h1
      have p2 := part ['e', 's', 'l', 'a', 'f'] (Or.inr rfl) h2
      simp only [List.length_cons, List.length_nil] at p1 p2
      rw [show (0 + 1 + 1 + 1 + 1 : Nat) = 4 from rfl] at p1
      rw [show (0 + 1 + 1 + 1 + 1 + 1 : Nat) = 5 from rfl] at p2
      simp [p1, p2]
    · rw [if_pos h1, if_neg h2]
      have p1 := part ['e', 'u', 'r', 't'] (Or.inl rfl) h1
      simp only [List.length_cons, List.length_nil] at p1
      rw [show (0 + 1 + 1 + 1 + 1 : Nat) = 4 from rfl] at p1
      simp [p1]
  · by_cases h2 : listIsPre ['e', 's', 'l', 'a', 'f'] (xr ++ '"' :: ' ' :: t) = true
    · rw [if_neg h1, if_pos h2]
      have p2 := part ['e', 's', 'l', 'a', 'f'] (Or.inr rfl) h2
      simp only [List.length_cons, List.length_nil] at p2
      rw [show (0 + 1 + 1 + 1 + 1 + 1 : Nat) = 5 from rfl] at p2
      simp [p2]
    · rw [if_neg h1, if_neg h2]
      simp

/-- The fixed prefix of the documented verdict JSON, up to and including the
opening quote of the reason string. -/
def verdictHead (b : Bool) : List Char :=
  ("\x7b\"passed\": " ++ (if b then "true" else "false") ++ ", \"reason\": \"").data

/-- The documented output format of the comparator prompt:
`\x7b"passed": <bool>, "reason": "<text>"\x7d` — the fixed head, the reason
text, then the closing quote and brace. -/
def jsonVerdictText (b : Bool) (x : String) : String :=
  String.mk (verdictHead b ++ (x.data ++ ['"', '\x7d']))

theorem head_region_check (b : Bool) : ∀ n, n < (verdictHead b).length →
    lookbehindOk (((verdictHead b).take n).reverse) = false ∨
    (isJsSpace (((verdictHead b).drop n).headD 'x') = false ∧
      ((verdictHead b).drop n).headD 'x' ≠ '"') := by
  cases b
  · decide
  · decide

theorem verdictHead_rev (b : Bool) :
    ∃ t0, (verdictHead b).reverse = '"' :: ' ' :: t0 := by
  cases b
  · exact ⟨_, rfl⟩
  · exact ⟨_, rfl⟩

theorem template_no_match (b : Bool) (x : List Char) (hxq : ∀ c ∈ x, c ≠ '"') :
    ∀ n, n ≤ (verdictHead b ++ (x ++ ['"', '\x7d'])).length →
      ¬(lookbehindOk (((verdictHead b ++ (x ++ ['"', '\x7d'])).take n).reverse) = true ∧
        aheadOk ((verdictHead b ++ (x ++ ['"', '\x7d'])).drop n) = true) := by
  intro n hn hcon
  obtain ⟨hlb, hah⟩ := hcon
  rcases Nat.lt_or_ge n (verdictHead b).length with hlt | hge
  · rw [List.take_append_of_le_length (Nat.le_of_lt hlt)] at hlb
    rw [List.drop_append_of_le_length (Nat.le_of_lt hlt)] at hah
    rcases head_region_check b n hlt with hfalse | ⟨hsp, hq⟩
    · rw [hfalse] at hlb
      exact Bool.false_ne_true hlb
    · have hcons : (verdictHead b).drop n = (verdictHead b)[n] :: (verdictHead b).drop (n + 1) :=
        List.drop_eq_getElem_cons hlt
      rw [hcons] at hah hsp hq
      simp only [List.headD_cons] at hsp hq
      rw [List.cons_append] at hah
      rw [aheadOk_head_bad _ _ hsp hq] at hah
      exact Bool.false_ne_true hah
  · obtain ⟨m, rfl⟩ : ∃ m, n = (verdictHead b).length + m :=
      ⟨n - (verdictHead b).length, by omega⟩
    rw [List.take_append] at hlb
    rw [List.reverse_append] at hlb
    obtain ⟨t0, ht0⟩ := verdictHead_rev b
    rw [ht0] at hlb
    rcases Nat.lt_or_ge m (x.length + 1) with hm | hm
    · rcases Nat.lt_or_ge m (x.length + 1) with _ | _
      all_goals {
        rcases Nat.le_of_lt_succ hm with hmx
        rw [List.take_append_of_le_length hmx] at hlb
        have harg : ((x.take m).reverse ++ ('"' :: ' ' :: t0)) =
            (x.take m).reverse ++ '"' :: ' ' :: t0 := rfl
        rw [lb_safe ((x.take m).reverse) t0 (by
          intro c hc
          exact hxq c (List.mem_of_mem_take (List.mem_reverse.mp hc)))] at hlb
        exact Bool.false_ne_true hlb
      }
    · have hm2 : m ≤ x.length + 2 := by
        have h := hn
        simp only [List.length_append, List.length_cons, List.length_nil] at h
        omega
      rcases Nat.eq_or_lt_of_le hm with heq | hlt2
      · -- m = x.length + 1 : the reversed prefix starts with the closing quote
        rw [← heq] at hlb
        have hshape : ((x ++ ['"', '\x7d']).take (x.length + 1)).reverse ++ '"' :: ' ' :: t0 =
            '"' :: (x.reverse ++ '"' :: ' ' :: t0) := by
          rw [show ((x ++ ['"', '\x7d']).take (x.length + 1)) = x ++ ['"'] from by
            rw [List.take_append]; rfl]
          simp
        rw [hshape, lookbehind_quote] at hlb
        exact Bool.false_ne_true hlb
      · have hm3 : m = x.length + 2 := by omega
        subst hm3
        have hshape : ((x ++ ['"', '\x7d']).take (x.length + 2)).reverse ++ '"' :: ' ' :: t0 =
            '\x7d' :: ('"' :: (x.reverse ++ '"' :: ' ' :: t0)) := by
          rw [show ((x ++ ['"', '\x7d']).take (x.length + 2)) = x ++ ['"', '\x7d'] from by
            apply List.take_of_length_le
            simp]
          simp
        rw [hshape, lookbehind_rbrace] at hlb
        exact Bool.false_ne_true hlb

set_option maxHeartbeats 1600000 in
theorem parseStringBody_plain (x : List Char) (rest : List Char)
    (hx : ∀ c ∈ x, c ≠ '"' ∧ c ≠ '\\' ∧ ¬ c.val < 0x20) :
    parseStringBody (x ++ '"' :: rest) = .ok (x, rest) := by
  induction x with
  | nil => rfl
  | cons c x' ih =>
    obtain ⟨h1, h2, h3⟩ := hx c (List.mem_cons_self c x')
    rw [List.cons_append, parseStringBody.eq_def]
    split
    · rename_i heq
      simp at heq
    · rename_i heq
      injection heq with e1 e2
      exact absurd e1 h1
    · rename_i heq
      injection heq with e1 e2
      exact absurd e1 h2
    · rename_i heq
      injection heq with e1 e2
      subst e1
      rw [← e2]
      rw [if_neg h3]
      rw [ih (fun d hd => hx d (List.mem_cons_of_mem c hd))]
      rfl

set_option maxHeartbeats 1600000 in
theorem pj_template (b : Bool) (x : List Char)
    (hx : ∀ c ∈ x, c ≠ '"' ∧ c ≠ '\\' ∧ ¬ c.val < 0x20) (f : Nat) :
    pj (f + 5) .pvalue (verdictHead b ++ (x ++ ['"', '\x7d'])) =
      .ok (.jobj [("passed".data, .jbool b), ("reason".data, .jstr x)], []) := by
  have hstr : parseStringBody (x ++ '"' :: ['\x7d']) = .ok (x, ['\x7d']) :=
    parseStringBody_plain x ['\x7d'] hx
  cases b
  · simp only [verdictHead, if_false, Bool.false_eq_true]
    simp [pj, parseStringBody, Except.map, isJsonWs, hstr, List.dropWhile]
  · simp only [verdictHead, if_true]
    simp [pj, parseStringBody, Except.map, isJsonWs, hstr, List.dropWhile]

theorem jsonParse_template (b : Bool) (x : List Char)
    (hx : ∀ c ∈ x, c ≠ '"' ∧ c ≠ '\\' ∧ ¬ c.val < 0x20) :
    jsonParse (verdictHead b ++ (x ++ ['"', '\x7d'])) =
      .ok (.jobj [("passed".data, .jbool b), ("reason".data, .jstr x)]) := by
  unfold jsonParse
  cases b
  · have hlen : (verdictHead false ++ (x ++ ['"', '\x7d'])).length + 1 =
        (x.length + 27) + 5 := by
      have hv : (verdictHead false).length = 29 := by decide
      simp only [List.length_append, List.length_cons, List.length_nil, hv]
      omega
    rw [hlen, pj_template false x hx]
    simp
  · have hlen : (verdictHead true ++ (x ++ ['"', '\x7d'])).length + 1 =
        (x.length + 26) + 5 := by
      have hv : (verdictHead true).length = 28 := by decide
      simp only [List.length_append, List.length_cons, List.length_nil, hv]
      omega
    rw [hlen, pj_template true x hx]
    simp

theorem validateShape_template (b : Bool) (x : List Char) :
    validateShape (.jobj [("passed".data, .jbool b), ("reason".data, .jstr x)]) =
      some (b, x) := by
  simp [validateShape, jsGetProp]

/-- Claim C5 counterexample: the round trip fails as universally stated —
for the well-formed JSON object whose reason text contains the fence marker
"```json", fence stripping (which runs before slicing) deletes the marker
from inside the string literal, so the interpreter returns reason "xy"
instead of the original text. -/
theorem round_trip_counterexample :
    interpretAIJsonResponse ("" ++ jsonVerdictText true "x```jsony" ++ "") = ⟨true, "xy"⟩ ∧
    interpretAIJsonResponse ("" ++ jsonVerdictText true "x```jsony" ++ "") ≠
      ⟨true, "x```jsony"⟩ := by
  constructor
  · decide
  · decide

/-- Claim C5 (amended): for every well-formed
`\x7b"passed": <bool>, "reason": "X"\x7d` text, optionally surrounded by
prose or fences, the interpreter returns exactly `(passed, X)` — provided
the reason text contains no quote, backslash, backtick or control
character (quotes/backslashes/controls would change the JSON string value,
and a backtick fence marker inside the reason is corrupted by fence
stripping), and the surrounding prose contains no braces. -/
theorem interpreter_round_trip (b : Bool) (x pre post : String)
    (hx : ∀ c ∈ x.data, c ≠ '"' ∧ c ≠ '\\' ∧ c ≠ '`' ∧ ¬ c.val < 0x20)
    (hpre : ∀ c ∈ pre.data, c ≠ '\x7b' ∧ c ≠ '\x7d')
    (hpost : ∀ c ∈ post.data, c ≠ '\x7b' ∧ c ≠ '\x7d') :
    interpretAIJsonResponse (pre ++ jsonVerdictText b x ++ post) = ⟨b, x⟩ := by
  obtain ⟨vt, hvt⟩ : ∃ vt, verdictHead b = '\x7b' :: vt := by
    cases b
    · exact ⟨_, rfl⟩
    · exact ⟨_, rfl⟩
  have hvhFacts : ∀ c ∈ verdictHead b, c ≠ '`' ∧ c ≠ '\n' ∧ c ≠ '\r' := by
    cases b
    · decide
    · decide
  have hTtick : ∀ c ∈ verdictHead b ++ (x.data ++ ['"', '\x7d']), c ≠ '`' := by
    intro c hc
    rcases List.mem_append.mp hc with h | h
    · exact (hvhFacts c h).1
    rcases List.mem_append.mp h with h2 | h2
    · exact (hx c h2).2.2.1
    · rcases List.mem_cons.mp h2 with h3 | h3
      · rw [h3]; decide
      · rcases List.mem_cons.mp h3 with h4 | h4
        · rw [h4]; decide
        · simp at h4
  have hTnl : ∀ c ∈ verdictHead b ++ (x.data ++ ['"', '\x7d']), c ≠ '\n' ∧ c ≠ '\r' := by
    intro c hc
    rcases List.mem_append.mp hc with h | h
    · exact ⟨(hvhFacts c h).2.1, (hvhFacts c h).2.2⟩
    rcases List.mem_append.mp h with h2 | h2
    · constructor
      · intro hcc
        exact (hx c h2).2.2.2 (by rw [hcc]; decide)
      · intro hcc
        exact (hx c h2).2.2.2 (by rw [hcc]; decide)
    · rcases List.mem_cons.mp h2 with h3 | h3
      · rw [h3]; decide
      · rcases List.mem_cons.mp h3 with h4 | h4
        · rw [h4]; decide
        · simp at h4
  have hinput : (pre ++ jsonVerdictText b x ++ post).data =
      (pre.data ++ (verdictHead b ++ (x.data ++ ['"', '\x7d']))) ++ post.data := rfl
  have hstrip : stripFencesJson
      ((pre.data ++ (verdictHead b ++ (x.data ++ ['"', '\x7d']))) ++ post.data) =
      stripFencesJson pre.data ++
        ((verdictHead b ++ (x.data ++ ['"', '\x7d'])) ++ stripFencesJson post.data) := by
    rw [List.append_assoc]
    rw [strip_append_brace pre.data.length pre.data _ le_rfl (by rw [hvt]; rfl)]
    rw [strip_no_tick _ post.data hTtick]
  have hAfree : ∀ c ∈ stripFencesJson pre.data, ¬ c = '\x7b' :=
    fun c hc => (hpre c (strip_subset _ c hc)).1
  have hCfree : ∀ c ∈ stripFencesJson post.data, ¬ c = '\x7d' :=
    fun c hc => (hpost c (strip_subset _ c hc)).2
  have hshape1 : stripFencesJson pre.data ++
      ((verdictHead b ++ (x.data ++ ['"', '\x7d'])) ++ stripFencesJson post.data) =
      (stripFencesJson pre.data ++ ('\x7b' :: (vt ++ (x.data ++ ['"'])))) ++
        '\x7d' :: stripFencesJson post.data := by
    rw [hvt]
    simp [List.append_assoc]
  obtain ⟨C2, hC2eq, hC2sub⟩ :=
    stripTrailingFence_part
      (stripFencesJson pre.data ++ ('\x7b' :: (vt ++ (x.data ++ ['"']))))
      (stripFencesJson post.data)
  have hshape2 : (stripFencesJson pre.data ++ ('\x7b' :: (vt ++ (x.data ++ ['"'])))) ++
      '\x7d' :: C2 =
      stripFencesJson pre.data ++ '\x7b' :: ((vt ++ (x.data ++ ['"'])) ++ '\x7d' :: C2) := by
    simp [List.append_assoc]
  obtain ⟨A2, B2, htrim, hA2sub, hB2sub⟩ :=
    jsTrim_part (stripFencesJson pre.data) (vt ++ (x.data ++ ['"'])) C2
  have hA2free : ∀ c ∈ A2, ¬ c = '\x7b' := fun c hc => hAfree c (hA2sub c hc)
  have hB2free : ∀ c ∈ B2, ¬ c = '\x7d' := fun c hc => hCfree c (hC2sub c (hB2sub c hc))
  have hslice := extractBraced_inner A2 (vt ++ (x.data ++ ['"'])) B2 hA2free hB2free
  have hinner : ('\x7b' :: ((vt ++ (x.data ++ ['"'])) ++ ['\x7d'])) =
      verdictHead b ++ (x.data ++ ['"', '\x7d']) := by
    rw [hvt]
    simp [List.append_assoc]
  have hstage : stageSlice (pre ++ jsonVerdictText b x ++ post).data =
      some (verdictHead b ++ (x.data ++ ['"', '\x7d'])) := by
    unfold stageSlice stage1
    rw [hinput, hstrip, hshape1, hC2eq, hshape2, htrim, hslice, hinner]
  have hxplain : ∀ c ∈ x.data, c ≠ '"' ∧ c ≠ '\\' ∧ ¬ c.val < 0x20 :=
    fun c hc => ⟨(hx c hc).1, (hx c hc).2.1, (hx c hc).2.2.2⟩
  have hxq : ∀ c ∈ x.data, c ≠ '"' := fun c hc => (hx c hc).1
  have hnorm : stageNorm (verdictHead b ++ (x.data ++ ['"', '\x7d'])) =
      verdictHead b ++ (x.data ++ ['"', '\x7d']) := by
    unfold stageNorm
    rw [replaceNewlines_id _ hTnl]
    unfold fixMissingComma
    rw [fixCommaAux_no_match _ [] []]
    · rfl
    · intro n hn
      have := template_no_match b x.data hxq n hn
      simpa using this
  have hres : interpretL (pre ++ jsonVerdictText b x ++ post).data = (b, x.data) := by
    unfold interpretL
    simp only [hstage, hnorm, jsonParse_template b x.data hxplain]
    simp [validateShape, jsGetProp]
  unfold interpretAIJsonResponse
  rw [hres]

theorem interpreter_round_trip_witness :
    interpretAIJsonResponse ("```json\n" ++ jsonVerdictText false "layout shifted." ++ "\n```") =
      ⟨false, "layout shifted."⟩ :=
  interpreter_round_trip false "layout shifted." "```json\n" "\n```"
    (by decide) (by decide) (by decide)
